import Mathlib

/-!
# go-URL: an in-memory URL shortener

A shallow embedding of `main.go` and a verification of its specification.

* Go strings are byte sequences: `GoString` is a list of bytes.
* `urlDB`, a `map[string]URL`, is a function from keys to optional records; every
  operation that touches it takes the current map and returns the new one.
* `time.Now()` is an explicit argument of the operations that read the clock.
* The standard-library calls of `main.go` (`crypto/md5`, `encoding/hex`, `encoding/json`,
  `net/http`, `net/url`, `path`) are embedded from the Go standard library (Go 1.22), as
  far as the handlers depend on them.
* A request body is given as the JSON value `json.Decoder` reads from it, and a JSON
  response body as the object that is encoded; a handler's response is the status, the
  headers the handler sets itself, and the body.
-/

namespace GoURL

/-! ## Go strings -/

/-- One byte. -/
abbrev Byte := Fin 256

/-- Go `string`: an immutable sequence of bytes. -/
abbrev GoString := List Byte

/-- UTF-8 encoding of one code point: what a Go string literal holds for the character. -/
def utf8Encode (c : Char) : GoString :=
  let n := c.toNat
  if n < 0x80 then [Fin.ofNat n]
  else if n < 0x800 then [Fin.ofNat (0xC0 + n / 0x40), Fin.ofNat (0x80 + n % 0x40)]
  else if n < 0x10000 then
    [Fin.ofNat (0xE0 + n / 0x1000), Fin.ofNat (0x80 + n / 0x40 % 0x40),
     Fin.ofNat (0x80 + n % 0x40)]
  else
    [Fin.ofNat (0xF0 + n / 0x40000), Fin.ofNat (0x80 + n / 0x1000 % 0x40),
     Fin.ofNat (0x80 + n / 0x40 % 0x40), Fin.ofNat (0x80 + n % 0x40)]

/-- The Go string written as the literal `s` (its UTF-8 bytes). -/
def goStr (s : String) : GoString := s.toList.flatMap utf8Encode

/-! ## `crypto/md5` (RFC 1321) -/

/-- MD5 sine table: `floor (2^32 * |sin (i + 1)|)`. -/
def md5K : List Nat := [
  0xd76aa478, 0xe8c7b756, 0x242070db, 0xc1bdceee,
  0xf57c0faf, 0x4787c62a, 0xa8304613, 0xfd469501,
  0x698098d8, 0x8b44f7af, 0xffff5bb1, 0x895cd7be,
  0x6b901122, 0xfd987193, 0xa679438e, 0x49b40821,
  0xf61e2562, 0xc040b340, 0x265e5a51, 0xe9b6c7aa,
  0xd62f105d, 0x02441453, 0xd8a1e681, 0xe7d3fbc8,
  0x21e1cde6, 0xc33707d6, 0xf4d50d87, 0x455a14ed,
  0xa9e3e905, 0xfcefa3f8, 0x676f02d9, 0x8d2a4c8a,
  0xfffa3942, 0x8771f681, 0x6d9d6122, 0xfde5380c,
  0xa4beea44, 0x4bdecfa9, 0xf6bb4b60, 0xbebfbc70,
  0x289b7ec6, 0xeaa127fa, 0xd4ef3085, 0x04881d05,
  0xd9d4d039, 0xe6db99e5, 0x1fa27cf8, 0xc4ac5665,
  0xf4292244, 0x432aff97, 0xab9423a7, 0xfc93a039,
  0x655b59c3, 0x8f0ccc92, 0xffeff47d, 0x85845dd1,
  0x6fa87e4f, 0xfe2ce6e0, 0xa3014314, 0x4e0811a1,
  0xf7537e82, 0xbd3af235, 0x2ad7d2bb, 0xeb86d391]

/-- Left-rotation amount of each of the 64 steps. -/
def md5S : List Nat := [
  7, 12, 17, 22, 7, 12, 17, 22, 7, 12, 17, 22, 7, 12, 17, 22,
  5, 9, 14, 20, 5, 9, 14, 20, 5, 9, 14, 20, 5, 9, 14, 20,
  4, 11, 16, 23, 4, 11, 16, 23, 4, 11, 16, 23, 4, 11, 16, 23,
  6, 10, 15, 21, 6, 10, 15, 21, 6, 10, 15, 21, 6, 10, 15, 21]

/-- `bits.RotateLeft32 x k` on a 32-bit word. -/
def rotl32 (x k : Nat) : Nat := ((x <<< k) ||| (x >>> (32 - k))) % 2 ^ 32

/-- Round function of step `i`, in the form `md5block.go` writes it. -/
def md5F (i b c d : Nat) : Nat :=
  if i < 16 then ((c ^^^ d) &&& b) ^^^ d
  else if i < 32 then ((b ^^^ c) &&& d) ^^^ c
  else if i < 48 then b ^^^ c ^^^ d
  else c ^^^ (b ||| (d ^^^ 0xffffffff))

/-- Index of the message word step `i` reads. -/
def md5G (i : Nat) : Nat :=
  if i < 16 then i
  else if i < 32 then (5 * i + 1) % 16
  else if i < 48 then (3 * i + 5) % 16
  else (7 * i) % 16

/-- The four 32-bit chaining words of the digest. -/
structure MD5State where
  a : Nat
  b : Nat
  c : Nat
  d : Nat
deriving DecidableEq

/-- One of the 64 steps over the message words `x` of a block. -/
def md5Step (x : List Nat) (s : MD5State) (i : Nat) : MD5State :=
  let f := (md5F i s.b s.c s.d + s.a + x.getD (md5G i) 0 + md5K.getD i 0) % 2 ^ 32
  { a := s.d, d := s.c, c := s.b, b := (s.b + rotl32 f (md5S.getD i 0)) % 2 ^ 32 }

/-- Little-endian 32-bit word of four bytes. -/
def le32 (b0 b1 b2 b3 : Byte) : Nat :=
  b0.val + b1.val * 2 ^ 8 + b2.val * 2 ^ 16 + b3.val * 2 ^ 24

/-- The little-endian message words of a block. -/
def md5Words : List Byte → List Nat
  | b0 :: b1 :: b2 :: b3 :: rest => le32 b0 b1 b2 b3 :: md5Words rest
  | _ => []

/-- Compression of one 64-byte block `p` into the state `s`. -/
def md5Block (s : MD5State) (p : List Byte) : MD5State :=
  let x := md5Words p
  let r := (List.range 64).foldl (md5Step x) s
  { a := (s.a + r.a) % 2 ^ 32, b := (s.b + r.b) % 2 ^ 32,
    c := (s.c + r.c) % 2 ^ 32, d := (s.d + r.d) % 2 ^ 32 }

/-- Compression of the first `n` 64-byte blocks of `p`. -/
def md5Blocks : Nat → MD5State → List Byte → MD5State
  | 0, s, _ => s
  | n + 1, s, p => md5Blocks n (md5Block s (p.take 64)) (p.drop 64)

/-- The `k` low bytes of `n`, least significant first. -/
def putLE (n : Nat) : Nat → List Byte
  | 0 => []
  | k + 1 => Fin.ofNat n :: putLE (n / 256) k

/-- Padding `Sum` appends to a message of `len` bytes: `0x80`, zeros up to 56 mod 64, and
the bit length as a little-endian `uint64`. -/
def md5Pad (len : Nat) : List Byte :=
  let pad := (2 ^ 64 + 55 - len % 2 ^ 64) % 2 ^ 64 % 64
  (0x80 : Byte) :: (List.replicate pad (0 : Byte) ++ putLE (len * 8 % 2 ^ 64) 8)

/-- Initial chaining value. -/
def md5Init : MD5State :=
  { a := 0x67452301, b := 0xefcdab89, c := 0x98badcfe, d := 0x10325476 }

/-- Digest of `msg`: `h := md5.New(); h.Write(msg); h.Sum(nil)`. -/
def md5Sum (msg : List Byte) : List Byte :=
  let p := msg ++ md5Pad msg.length
  let s := md5Blocks (p.length / 64) md5Init p
  putLE s.a 4 ++ putLE s.b 4 ++ putLE s.c 4 ++ putLE s.d 4

/-! ## `encoding/hex` -/

/-- Digits of `encoding/hex`. -/
def hextable : GoString := goStr "0123456789abcdef"

/-- `hex.EncodeToString`: two digits a byte, `hextable[v>>4]` then `hextable[v&0x0f]`. -/
def hexEncodeToString (src : List Byte) : GoString :=
  src.flatMap fun v => [hextable.getD (v.val >>> 4) 0, hextable.getD (v.val &&& 0x0f) 0]

/-! ## `encoding/json` -/

/-- A JSON value as `encoding/json` scans it; strings are held decoded. -/
inductive JSON where
  | null
  | bool (b : Bool)
  | number (literal : GoString)
  | string (s : GoString)
  | array (elems : List JSON)
  | object (members : List (GoString × JSON))

/-- Target of the decoder in `ShortURLHandler`: `struct { URL string }` with tag `url`. -/
structure ShortenData where
  URL : GoString := []
deriving DecidableEq

/-- `foldName`: ASCII lowercase letters go to upper case. Bytes from `0x80` up are kept:
the runes they encode fold to no ASCII letter of `URL` (only `K` and `S` have fold
partners outside ASCII), so a key that holds one never folds to the field name. -/
def foldName (key : GoString) : GoString :=
  key.map fun c => if 0x61 ≤ c.val ∧ c.val ≤ 0x7A then Fin.ofNat (c.val - 0x20) else c

/-- Whether an object key selects the field tagged `url`: by exact name, else by folded
name. -/
def keySelectsURL (key : GoString) : Bool :=
  key = goStr "url" || foldName key = foldName (goStr "url")

/-- Errors `Decode` returns to `ShortURLHandler`: the body is empty or is not well-formed
JSON (`io.EOF`, `io.ErrUnexpectedEOF`, `SyntaxError`), the value is nested deeper than
the scanner allows (the `SyntaxError` `exceeded max depth`), or a value cannot be stored
in its target (`UnmarshalTypeError`, with its `Value`). -/
inductive DecodeError where
  | malformed
  | exceededMaxDepth
  | unmarshalType (value : GoString)
deriving DecidableEq

/-- `maxNestingDepth` of the scanner: the most arrays and objects that may be open at
once. -/
def maxNestingDepth : Nat := 10000

mutual
/-- Nesting depth of a value: the most arrays and objects open at once while the scanner
reads it, the length `parseState` reaches. -/
def JSON.depth : JSON → Nat
  | .array elems => 1 + depthElems elems
  | .object members => 1 + depthMembers members
  | _ => 0
/-- Greatest nesting depth among the elements of an array. -/
def depthElems : List JSON → Nat
  | [] => 0
  | v :: vs => max v.depth (depthElems vs)
/-- Greatest nesting depth among the member values of an object. -/
def depthMembers : List (GoString × JSON) → Nat
  | [] => 0
  | m :: ms => max m.2.depth (depthMembers ms)
end

/-- Name `UnmarshalTypeError.Value` gives the kind of a JSON value. -/
def JSON.kind : JSON → GoString
  | .null => goStr "null"
  | .bool _ => goStr "bool"
  | .number _ => goStr "number"
  | .string _ => goStr "string"
  | .array _ => goStr "array"
  | .object _ => goStr "object"

/-- Decoder state: the target and `d.savedError`. -/
structure DecodeState where
  data : ShortenData
  savedError : Option DecodeError

/-- `d.saveError`: only the first error is kept. -/
def DecodeState.saveError (d : DecodeState) (e : DecodeError) : DecodeState :=
  { d with savedError := d.savedError.orElse fun _ => some e }

/-- Decoding of one object member into the struct: a key that selects `URL` stores a
string, leaves the field on `null`, and saves a type error on any other value; other
keys are skipped. -/
def decodeMember (d : DecodeState) (member : GoString × JSON) : DecodeState :=
  if keySelectsURL member.1 then
    match member.2 with
    | .string s => { d with data := { URL := s } }
    | .null => d
    | v => d.saveError (.unmarshalType v.kind)
  else d

/-- `json.NewDecoder(r.Body).Decode(&data)`: `body` is the first JSON value of the
request body, `none` when the body is empty or does not start with a well-formed JSON
value. `Decode` scans the whole value before it stores anything, and the scanner fails
once more than `maxNestingDepth` arrays and objects are open. After the scan a JSON
object is decoded member by member, `null` leaves the target as it is, and any other
value is a type error. -/
def jsonDecode (body : Option JSON) : Except DecodeError ShortenData :=
  match body with
  | none => .error .malformed
  | some v =>
    if maxNestingDepth < v.depth then .error .exceededMaxDepth
    else
      match v with
      | .object members =>
        let d := members.foldl decodeMember { data := {}, savedError := none }
        match d.savedError with
        | some e => .error e
        | none => .ok d.data
      | .null => .ok {}
      | other => .error (.unmarshalType other.kind)

/-! ## `strings` helpers -/

/-- `strings.HasPrefix`. -/
def stringsHasPrefix (s p : GoString) : Bool := p.isPrefixOf s

/-- `strings.HasSuffix`. -/
def stringsHasSuffix (s p : GoString) : Bool := p.isSuffixOf s

/-- `strings.Index s sep`: index of the first occurrence of `sep`, `none` for Go's `-1`. -/
def stringsIndex : GoString → GoString → Option Nat
  | [], sep => if sep = [] then some 0 else none
  | c :: rest, sep =>
    if sep.isPrefixOf (c :: rest) then some 0 else (stringsIndex rest sep).map (· + 1)

/-- `strings.LastIndex s sep` for a one-byte `sep`, `none` for Go's `-1`. -/
def stringsLastIndexByte : GoString → Byte → Option Nat
  | [], _ => none
  | c :: rest, sep =>
    match stringsLastIndexByte rest sep with
    | some i => some (i + 1)
    | none => if c = sep then some 0 else none

/-- `strings.Cut s sep` for a one-byte `sep`: before, after, found. -/
def stringsCut : GoString → Byte → GoString × GoString × Bool
  | [], _ => ([], [], false)
  | c :: rest, sep =>
    if c = sep then ([], rest, true)
    else
      let r := stringsCut rest sep
      (c :: r.1, r.2.1, r.2.2)

/-- `strings.Count s sep` for a one-byte `sep`. -/
def stringsCount (s : GoString) (sep : Byte) : Nat := s.count sep

/-- `strings.ToLower` on a scheme, which holds only ASCII letters, digits, `+`, `-` and
`.`. -/
def asciiToLower (s : GoString) : GoString :=
  s.map fun c => if 0x41 ≤ c.val ∧ c.val ≤ 0x5A then Fin.ofNat (c.val + 0x20) else c

/-! ## `net/url`: `url.Parse` (Go 1.22) -/

/-- Escaping modes of `net/url`. -/
inductive Encoding where
  | encodePath
  | encodePathSegment
  | encodeHost
  | encodeZone
  | encodeUserPassword
  | encodeQueryComponent
  | encodeFragment
deriving DecidableEq

/-- ASCII letter or digit. -/
def isAlnum (c : Byte) : Bool :=
  (0x61 ≤ c.val && c.val ≤ 0x7A) || (0x41 ≤ c.val && c.val ≤ 0x5A) ||
    (0x30 ≤ c.val && c.val ≤ 0x39)

/-- `shouldEscape c mode` of `net/url`. -/
def shouldEscape (c : Byte) (mode : Encoding) : Bool :=
  if isAlnum c then false
  else if (mode = .encodeHost ∨ mode = .encodeZone) ∧ c ∈ goStr "!$&\x27()*+,;=:[]<>\"" then false
  else if c ∈ goStr "-_.~" then false
  else if c ∈ goStr "$&+,/:;=?@" then
    match mode with
    | .encodePath => c = 0x3F
    | .encodePathSegment => c = 0x2F || c = 0x3B || c = 0x2C || c = 0x3F
    | .encodeUserPassword => c = 0x40 || c = 0x2F || c = 0x3F || c = 0x3A
    | .encodeQueryComponent => true
    | .encodeFragment => false
    | _ => true
  else if mode = .encodeFragment ∧ c ∈ goStr "!()*" then false
  else true

/-- `ishex`. -/
def ishex (c : Byte) : Bool :=
  (0x30 ≤ c.val && c.val ≤ 0x39) || (0x61 ≤ c.val && c.val ≤ 0x66) ||
    (0x41 ≤ c.val && c.val ≤ 0x46)

/-- `unhex`. -/
def unhex (c : Byte) : Nat :=
  if 0x30 ≤ c.val ∧ c.val ≤ 0x39 then c.val - 0x30
  else if 0x61 ≤ c.val ∧ c.val ≤ 0x66 then c.val - 0x61 + 10
  else if 0x41 ≤ c.val ∧ c.val ≤ 0x46 then c.val - 0x41 + 10
  else 0

/-- First loop of `unescape`: whether every `%` starts a well-formed escape the mode
allows and, in a host, every plain byte is allowed. -/
def unescapeValid (mode : Encoding) : GoString → Bool
  | [] => true
  | c :: rest =>
    if c = 0x25 then
      match rest with
      | h1 :: h2 :: rest2 =>
        if !ishex h1 || !ishex h2 then false
        else if mode = .encodeHost ∧ unhex h1 < 8 ∧ [c, h1, h2] ≠ goStr "%25" then false
        else if mode = .encodeZone ∧ [c, h1, h2] ≠ goStr "%25" ∧
            unhex h1 * 16 + unhex h2 ≠ 0x20 ∧
            shouldEscape (Fin.ofNat (unhex h1 * 16 + unhex h2)) .encodeHost then false
        else unescapeValid mode rest2
      | _ => false
    else if c = 0x2B then unescapeValid mode rest
    else if (mode = .encodeHost ∨ mode = .encodeZone) ∧ c.val < 0x80 ∧
        shouldEscape c .encodeHost then false
    else unescapeValid mode rest

/-- Second loop of `unescape`: the string with its escapes replaced. -/
def unescapeBytes (mode : Encoding) : GoString → GoString
  | [] => []
  | c :: rest =>
    if c = 0x25 then
      match rest with
      | h1 :: h2 :: rest2 => Fin.ofNat (unhex h1 * 16 + unhex h2) :: unescapeBytes mode rest2
      | _ => []
    else if c = 0x2B then
      (if mode = .encodeQueryComponent then (0x20 : Byte) else 0x2B) :: unescapeBytes mode rest
    else c :: unescapeBytes mode rest

/-- `unescape s mode`; `none` is a non-nil error. -/
def unescape (s : GoString) (mode : Encoding) : Option GoString :=
  if unescapeValid mode s then some (unescapeBytes mode s) else none

/-- `stringContainsCTLByte`. -/
def stringContainsCTLByte (s : GoString) : Bool :=
  s.any fun b => b.val < 0x20 || b.val = 0x7F

/-- Loop of `getScheme` at index `i`, `rest` being `rawURL[i:]`. -/
def getSchemeLoop (rawURL : GoString) : Nat → GoString → Option (GoString × GoString)
  | _, [] => some ([], rawURL)
  | i, c :: rest =>
    if (0x61 ≤ c.val ∧ c.val ≤ 0x7A) ∨ (0x41 ≤ c.val ∧ c.val ≤ 0x5A) then
      getSchemeLoop rawURL (i + 1) rest
    else if (0x30 ≤ c.val ∧ c.val ≤ 0x39) ∨ c = 0x2B ∨ c = 0x2D ∨ c = 0x2E then
      if i = 0 then some ([], rawURL) else getSchemeLoop rawURL (i + 1) rest
    else if c = 0x3A then
      if i = 0 then none else some (rawURL.take i, rawURL.drop (i + 1))
    else some ([], rawURL)

/-- `getScheme rawURL`: scheme and the rest; `none` is the error
`missing protocol scheme`. -/
def getScheme (rawURL : GoString) : Option (GoString × GoString) :=
  getSchemeLoop rawURL 0 rawURL

/-- `validOptionalPort`. -/
def validOptionalPort (port : GoString) : Bool :=
  match port with
  | [] => true
  | c :: digits => c = 0x3A && digits.all fun b => 0x30 ≤ b.val && b.val ≤ 0x39

/-- `validUserinfo`. -/
def validUserinfo (s : GoString) : Bool :=
  s.all fun r => isAlnum r || r ∈ goStr "-._:~!$&\x27()*+,;=%@"

/-- `parseHost`; `none` is a non-nil error. -/
def parseHost (host : GoString) : Option GoString :=
  let plain := unescape host .encodeHost
  if stringsHasPrefix host (goStr "[") then
    match stringsLastIndexByte host 0x5D with
    | none => none
    | some i =>
      if !validOptionalPort (host.drop (i + 1)) then none
      else
        match stringsIndex (host.take i) (goStr "%25") with
        | some zone =>
          match unescape (host.take zone) .encodeHost,
                unescape ((host.take i).drop zone) .encodeZone,
                unescape (host.drop i) .encodeHost with
          | some host1, some host2, some host3 => some (host1 ++ host2 ++ host3)
          | _, _, _ => none
        | none => plain
  else
    match stringsLastIndexByte host 0x3A with
    | some i => if !validOptionalPort (host.drop i) then none else plain
    | none => plain

/-- `parseAuthority`, the host it returns; `none` is a non-nil error. The `Userinfo`
value is left out: `http.Redirect` does not read it. -/
def parseAuthority (authority : GoString) : Option GoString :=
  match stringsLastIndexByte authority 0x40 with
  | none => parseHost authority
  | some i =>
    match parseHost (authority.drop (i + 1)) with
    | none => none
    | some host =>
      let userinfo := authority.take i
      if !validUserinfo userinfo then none
      else if 0x3A ∉ userinfo then
        (unescape userinfo .encodeUserPassword).map fun _ => host
      else
        let c := stringsCut userinfo 0x3A
        match unescape c.1 .encodeUserPassword, unescape c.2.1 .encodeUserPassword with
        | some _, some _ => some host
        | _, _ => none

/-- Fields of `url.URL` that `parse` fills and `http.Redirect` may read. -/
structure NetURL where
  Scheme : GoString := []
  Opaque : GoString := []
  Host : GoString := []
  Path : GoString := []
  RawQuery : GoString := []
  Fragment : GoString := []
deriving DecidableEq

/-- `parse rawURL viaRequest` of `net/url`; `none` is a non-nil error. -/
def parse (rawURL : GoString) (viaRequest : Bool) : Option NetURL :=
  if stringContainsCTLByte rawURL then none
  else if rawURL = [] ∧ viaRequest then none
  else if rawURL = goStr "*" then some { Path := goStr "*" }
  else
    match getScheme rawURL with
    | none => none
    | some (scheme0, rest0) =>
      let scheme := asciiToLower scheme0
      let split : GoString × GoString :=
        if stringsHasSuffix rest0 (goStr "?") ∧ stringsCount rest0 0x3F = 1 then
          (rest0.dropLast, [])
        else ((stringsCut rest0 0x3F).1, (stringsCut rest0 0x3F).2.1)
      let rest := split.1
      let rawQuery := split.2
      if !stringsHasPrefix rest (goStr "/") ∧ scheme ≠ [] then
        some { Scheme := scheme, Opaque := rest, RawQuery := rawQuery }
      else if !stringsHasPrefix rest (goStr "/") ∧ viaRequest then none
      else if !stringsHasPrefix rest (goStr "/") ∧ 0x3A ∈ (stringsCut rest 0x2F).1 then none
      else if (scheme ≠ [] ∨ (!viaRequest ∧ !stringsHasPrefix rest (goStr "///"))) ∧
          stringsHasPrefix rest (goStr "//") then
        let authority0 := rest.drop 2
        let cutAt : GoString × GoString :=
          match stringsIndex authority0 (goStr "/") with
          | some i => (authority0.take i, authority0.drop i)
          | none => (authority0, [])
        match parseAuthority cutAt.1, unescape cutAt.2 .encodePath with
        | some host, some path =>
          some { Scheme := scheme, Host := host, Path := path, RawQuery := rawQuery }
        | _, _ => none
      else
        match unescape rest .encodePath with
        | some path => some { Scheme := scheme, Path := path, RawQuery := rawQuery }
        | none => none

/-- `url.Parse rawURL`; `none` is a non-nil error. -/
def urlParse (rawURL : GoString) : Option NetURL :=
  let c := stringsCut rawURL 0x23
  match parse c.1 false with
  | none => none
  | some url =>
    if c.2.1 = [] then some url
    else
      match unescape c.2.1 .encodeFragment with
      | some frag => some { url with Fragment := frag }
      | none => none

/-! ## `path` -/

/-- `path.Split`: the directory part, up to and including the last slash. -/
def pathSplitDir (p : GoString) : GoString :=
  match stringsLastIndexByte p 0x2F with
  | some i => p.take (i + 1)
  | none => []

/-- Backtracking of `path.Clean` on a `..` element: from `w`, the write index after
`out.w--`, down to the previous slash or to `dotdot`. -/
def cleanBacktrack (out : GoString) (dotdot : Nat) : Nat → Nat
  | 0 => 0
  | w + 1 => if w + 1 > dotdot ∧ out.getD (w + 1) 0 ≠ 0x2F then cleanBacktrack out dotdot w
             else w + 1

/-- Main loop of `path.Clean`: `rest` is `path[r:]`, `out` the bytes written so far. Every
turn consumes at least one byte of `rest`, so `fuel = len rest` turns reach its end. -/
def cleanLoop (rooted : Bool) : Nat → GoString → GoString → Nat → GoString
  | 0, _, out, _ => out
  | _ + 1, [], out, _ => out
  | fuel + 1, c :: rest, out, dotdot =>
    if c = 0x2F then cleanLoop rooted fuel rest out dotdot
    else if c = 0x2E ∧ (rest = [] ∨ rest.head? = some 0x2F) then
      cleanLoop rooted fuel rest out dotdot
    else if c = 0x2E ∧ rest.head? = some 0x2E ∧
        (rest.drop 1 = [] ∨ (rest.drop 1).head? = some 0x2F) then
      if out.length > dotdot then
        cleanLoop rooted fuel (rest.drop 1)
          (out.take (cleanBacktrack out dotdot (out.length - 1))) dotdot
      else if !rooted then
        let out2 := (if out.length > 0 then out ++ [0x2F] else out) ++ [0x2E, 0x2E]
        cleanLoop rooted fuel (rest.drop 1) out2 out2.length
      else cleanLoop rooted fuel (rest.drop 1) out dotdot
    else
      let out2 :=
        if (rooted ∧ out.length ≠ 1) ∨ (!rooted ∧ out.length ≠ 0) then out ++ [0x2F] else out
      let elem := (c :: rest).takeWhile (· ≠ 0x2F)
      cleanLoop rooted fuel ((c :: rest).dropWhile (· ≠ 0x2F)) (out2 ++ elem) dotdot

/-- `path.Clean`. -/
def pathClean (p : GoString) : GoString :=
  if p = [] then goStr "."
  else
    let rooted : Bool := p.head? = some 0x2F
    let out :=
      if rooted then cleanLoop rooted p.length (p.drop 1) [0x2F] 1
      else cleanLoop rooted p.length p [] 0
    if out = [] then goStr "." else out

/-! ## `net/http` -/

/-- What a handler reads of `*http.Request`: the method, `r.URL.Path`, and the body as
`json.Decoder` sees it. -/
structure Request where
  Method : GoString
  Path : GoString
  Body : Option JSON

/-- Body a handler writes. -/
inductive ResponseBody where
  | empty
  | text (s : GoString)
  | json (members : List (GoString × GoString))
deriving DecidableEq

/-- What a handler writes to `http.ResponseWriter`: the status code, the headers it sets
and the body. -/
structure Response where
  Status : Nat
  Header : List (GoString × GoString)
  Body : ResponseBody
deriving DecidableEq

/-- `w.Header().Get key`. -/
def Response.get (w : Response) (key : GoString) : Option GoString := w.Header.lookup key

/-- `http.Error w error code` on a writer with no header set. -/
def httpError (error : GoString) (code : Nat) : Response :=
  { Status := code,
    Header := [(goStr "Content-Type", goStr "text/plain; charset=utf-8"),
               (goStr "X-Content-Type-Options", goStr "nosniff")],
    Body := .text (error ++ goStr "\n") }

/-- `hexEscapeNonASCII`: every byte from `0x80` up becomes `%` and its two lowercase hex
digits. -/
def hexEscapeNonASCII (s : GoString) : GoString :=
  s.flatMap fun b =>
    if b.val ≥ 0x80 then
      [(0x25 : Byte), hextable.getD (b.val / 16) 0, hextable.getD (b.val % 16) 0]
    else [b]

/-- `htmlEscape`: the replacer for `&`, `<`, `>`, `"` and the apostrophe. -/
def htmlEscape (s : GoString) : GoString :=
  s.flatMap fun b =>
    if b = 0x26 then goStr "&amp;"
    else if b = 0x3C then goStr "&lt;"
    else if b = 0x3E then goStr "&gt;"
    else if b = 0x22 then goStr "&#34;"
    else if b = 0x27 then goStr "&#39;"
    else [b]

/-- Target `http.Redirect` puts in `Location` before escaping: `url` itself unless it
parses as a reference with neither scheme nor host, which is resolved against the
directory of the request path and cleaned. -/
def redirectTarget (oldpath0 url : GoString) : GoString :=
  match urlParse url with
  | none => url
  | some u =>
    if u.Scheme = [] ∧ u.Host = [] then
      let oldpath := if oldpath0 = [] then goStr "/" else oldpath0
      let url1 := if url = [] ∨ url.head? ≠ some 0x2F then pathSplitDir oldpath ++ url else url
      let split : GoString × GoString :=
        match stringsIndex url1 (goStr "?") with
        | some i => (url1.take i, url1.drop i)
        | none => (url1, [])
      let trailing := stringsHasSuffix split.1 (goStr "/")
      let cleaned := pathClean split.1
      let url2 :=
        if trailing ∧ !stringsHasSuffix cleaned (goStr "/") then cleaned ++ goStr "/"
        else cleaned
      url2 ++ split.2
    else url

/-- `http.StatusFound`. -/
def StatusFound : Nat := 302

/-- `http.StatusNotFound`. -/
def StatusNotFound : Nat := 404

/-- `http.StatusBadRequest`. -/
def StatusBadRequest : Nat := 400

/-- `http.StatusOK`, the status of a response whose handler writes a body without
calling `WriteHeader`. -/
def StatusOK : Nat := 200

/-- `http.Redirect w r url http.StatusFound` on a writer with no header set: the
`Location` header, the `Content-Type` header for `GET` and `HEAD`, the status, and for
`GET` the short HTML body, in which `http.StatusText(http.StatusFound)` is `Found`. -/
def httpRedirectFound (r : Request) (url : GoString) : Response :=
  let target := redirectTarget r.Path url
  { Status := StatusFound,
    Header :=
      (goStr "Location", hexEscapeNonASCII target) ::
        (if r.Method = goStr "GET" ∨ r.Method = goStr "HEAD" then
          [(goStr "Content-Type", goStr "text/html; charset=utf-8")]
         else []),
    Body :=
      if r.Method = goStr "GET" then
        .text (goStr "<a href=\"" ++ htmlEscape target ++ goStr "\">" ++ goStr "Found" ++
          goStr "</a>.\n" ++ goStr "\n")
      else .empty }

/-! ## The link store of `main.go` -/

/-- Reading of the clock (`time.Time`). -/
abbrev Time := Nat

/-- Record of one link: `type URL struct`. -/
structure URL where
  ID : GoString
  OriginalURL : GoString
  ShortURL : GoString
  CreationDate : Time
deriving DecidableEq

/-- Type of `urlDB`: `map[string]URL`. -/
abbrev DB := GoString → Option URL

/-- Initial value of `urlDB`: `make(map[string]URL)`. -/
def urlDB : DB := fun _ => none

/-- Map assignment `m[k] = v`. -/
def mapAssign (m : DB) (k : GoString) (v : URL) : DB :=
  fun k' => if k' = k then some v else m k'

/-- `generateShortURL`: the first 8 characters of the hex MD5 digest of the URL. The slice
`[:8]` is `take 8`; `generateShortURL_shape` shows the sliced string always has 32
characters, so the slice is in range. -/
def generateShortURL (originalURL : GoString) : GoString :=
  let data := md5Sum originalURL
  (hexEncodeToString data).take 8

/-- `createURL`, run at clock reading `now` on the store `db`: the new store and the
returned token. -/
def createURL (now : Time) (db : DB) (originalURL : GoString) : DB × GoString :=
  let shortURL := generateShortURL originalURL
  (mapAssign db shortURL
    { ID := shortURL, OriginalURL := originalURL, ShortURL := shortURL, CreationDate := now },
   shortURL)

deriving instance DecidableEq for Except

/-- `getURL` on the store `db`: the record, or the error `URL not found`. -/
def getURL (db : DB) (id : GoString) : Except GoString URL :=
  match db id with
  | some url => .ok url
  | none => .error (goStr "URL not found")

/-! ## The handlers of `main.go` -/

/-- `ShortURLHandler`, run at clock reading `now` on the store `db`: the new store and the
response. -/
def ShortURLHandler (now : Time) (db : DB) (r : Request) : DB × Response :=
  match jsonDecode r.Body with
  | .error _ => (db, httpError (goStr "Invalid request body") StatusBadRequest)
  | .ok data =>
    let created := createURL now db data.URL
    (created.1,
     { Status := StatusOK, Header := [], Body := .json [(goStr "short_url", created.2)] })

/-- `redirectURLHandler` on the store `db`: the store after the call and the response,
`none` when the slice `r.URL.Path[len("/r/"):]` is out of range (a run-time panic). -/
def redirectURLHandler (db : DB) (r : Request) : DB × Option Response :=
  if r.Path.length < (goStr "/r/").length then (db, none)
  else
    let id := r.Path.drop (goStr "/r/").length
    match getURL db id with
    | .error _ => (db, some (httpError (goStr "URL not found") StatusNotFound))
    | .ok url => (db, some (httpRedirectFound r url.OriginalURL))

/-- A lowercase hexadecimal digit, `[0-9a-f]`. -/
def isLowerHex (c : Byte) : Bool :=
  (0x30 ≤ c.val && c.val ≤ 0x39) || (0x61 ≤ c.val && c.val ≤ 0x66)

/-! ## Runs of calls -/

/-- The calls `createURL(c.2)` made in order at the clock readings `c.1`, from the store
`db`: the final store and the tokens the calls returned. -/
def createAll (db : DB) : List (Time × GoString) → DB × List GoString
  | [] => (db, [])
  | c :: cs =>
    let r := createURL c.1 db c.2
    let rs := createAll r.1 cs
    (rs.1, r.2 :: rs.2)

/-- The last call of a sequence whose token is `t`, if any. -/
def lastCall (t : GoString) : List (Time × GoString) → Option (Time × GoString)
  | [] => none
  | c :: cs =>
    match lastCall t cs with
    | some later => some later
    | none => if generateShortURL c.2 = t then some c else none

/-- Whether `url.Parse` reads `u` as a reference with neither scheme nor host, the case in
which `http.Redirect` resolves it against the request path. -/
def parsesAsRelative (u : GoString) : Bool :=
  match urlParse u with
  | some p => p.Scheme = [] && p.Host = []
  | none => false

/-- The request `POST /shorten` whose body is the JSON value `body`. -/
def shortenRequest (body : Option JSON) : Request :=
  { Method := goStr "POST", Path := goStr "/shorten", Body := body }

/-- The request `method /r/t`. -/
def redirectRequest (method t : GoString) : Request :=
  { Method := method, Path := goStr "/r/" ++ t, Body := none }

/-- Token in the JSON body the creation endpoint answers with: `data.short_url`. -/
def ResponseBody.shortURL : ResponseBody → Option GoString
  | .json members => members.lookup (goStr "short_url")
  | _ => none

/-- The steps of the embedded page and its visitor: `POST /shorten` with the body
`JSON.stringify({ url: u })`, run at clock reading `now` on the store `db`, then the
request `method /r/t` for the `short_url` value `t` of the answer. The result is the
answer of `redirectURLHandler`, `none` when there is no token to follow or the handler
panics. -/
def shortenThenFollow (now : Time) (db : DB) (method u : GoString) : Option Response :=
  let created :=
    ShortURLHandler now db (shortenRequest (some (.object [(goStr "url", .string u)])))
  match created.2.Body.shortURL with
  | some t => (redirectURLHandler created.1 (redirectRequest method t)).2
  | none => none

/-! ## Lemmas on `encoding/hex` and `crypto/md5` -/

theorem putLE_length (n k : Nat) : (putLE n k).length = k := by
  induction k generalizing n with
  | zero => rfl
  | succ k ih => simp [putLE, ih]

theorem md5Sum_length (msg : List Byte) : (md5Sum msg).length = 16 := by
  simp [md5Sum, putLE_length]

theorem hexEncodeToString_cons (v : Byte) (vs : List Byte) :
    hexEncodeToString (v :: vs) =
      hextable.getD (v.val >>> 4) 0 :: hextable.getD (v.val &&& 0x0f) 0 ::
        hexEncodeToString vs := rfl

theorem hexEncodeToString_length (src : List Byte) :
    (hexEncodeToString src).length = 2 * src.length := by
  induction src with
  | nil => rfl
  | cons v vs ih => rw [hexEncodeToString_cons]; simp [ih]; omega

theorem hexEncodeToString_take (k : Nat) (src : List Byte) :
    (hexEncodeToString src).take (2 * k) = hexEncodeToString (src.take k) := by
  induction k generalizing src with
  | zero => simp [hexEncodeToString]
  | succ k ih =>
    cases src with
    | nil => simp [hexEncodeToString]
    | cons v vs =>
      have h2 : 2 * (k + 1) = 2 * k + 1 + 1 := by omega
      rw [hexEncodeToString_cons, h2, List.take_succ_cons, List.take_succ_cons, ih vs,
        List.take_succ_cons, hexEncodeToString_cons]

set_option maxRecDepth 100000 in
theorem hextable_digits (v : Byte) :
    isLowerHex (hextable.getD (v.val >>> 4) 0) = true ∧
      isLowerHex (hextable.getD (v.val &&& 0x0f) 0) = true := by
  revert v; decide

theorem hexEncodeToString_digits (src : List Byte) :
    ∀ c ∈ hexEncodeToString src, isLowerHex c = true := by
  intro c hc
  simp only [hexEncodeToString, List.mem_flatMap] at hc
  obtain ⟨v, _, hv⟩ := hc
  simp only [List.mem_cons, List.mem_singleton, List.not_mem_nil, or_false] at hv
  rcases hv with h | h
  · rw [h]; exact (hextable_digits v).1
  · rw [h]; exact (hextable_digits v).2

/-! ## Lemmas on the store -/

theorem mapAssign_same (m : DB) (k : GoString) (v : URL) : mapAssign m k v k = some v := by
  simp [mapAssign]

theorem mapAssign_other (m : DB) (k k' : GoString) (v : URL) (h : k' ≠ k) :
    mapAssign m k v k' = m k' := by
  simp [mapAssign, h]

theorem createURL_snd (now : Time) (db : DB) (u : GoString) :
    (createURL now db u).2 = generateShortURL u := rfl

theorem createURL_fst_same (now : Time) (db : DB) (u : GoString) :
    (createURL now db u).1 (generateShortURL u) =
      some { ID := generateShortURL u, OriginalURL := u, ShortURL := generateShortURL u,
             CreationDate := now } := by
  simp [createURL, mapAssign]

theorem createURL_fst_other (now : Time) (db : DB) (u t : GoString)
    (h : t ≠ generateShortURL u) : (createURL now db u).1 t = db t := by
  simp [createURL, mapAssign, h]

theorem getURL_ok_iff (db : DB) (t : GoString) (r : URL) :
    getURL db t = .ok r ↔ db t = some r := by
  unfold getURL
  cases h : db t <;> simp

theorem getURL_error_iff (db : DB) (t : GoString) :
    getURL db t = .error (goStr "URL not found") ↔ db t = none := by
  unfold getURL
  cases h : db t <;> simp

theorem createAll_snd (db : DB) (calls : List (Time × GoString)) :
    (createAll db calls).2 = calls.map fun c => generateShortURL c.2 := by
  induction calls generalizing db with
  | nil => rfl
  | cons c cs ih => simp [createAll, ih, createURL_snd]

theorem createAll_fst (db : DB) (calls : List (Time × GoString)) (t : GoString) :
    (createAll db calls).1 t =
      match lastCall t calls with
      | some c => some { ID := t, OriginalURL := c.2, ShortURL := t, CreationDate := c.1 }
      | none => db t := by
  induction calls generalizing db with
  | nil => rfl
  | cons c cs ih =>
    have hstep : (createAll db (c :: cs)).1 = (createAll (createURL c.1 db c.2).1 cs).1 := rfl
    rw [hstep, ih]
    simp only [lastCall]
    cases hl : lastCall t cs with
    | some later => rfl
    | none =>
      by_cases ht : generateShortURL c.2 = t
      · subst ht; simp [createURL_fst_same]
      · have ht2 : t ≠ generateShortURL c.2 := fun h => ht h.symm
        simp [ht, createURL_fst_other _ _ _ _ ht2]

theorem lastCall_none_iff (t : GoString) (calls : List (Time × GoString)) :
    lastCall t calls = none ↔ t ∉ calls.map fun c => generateShortURL c.2 := by
  induction calls with
  | nil => simp [lastCall]
  | cons c cs ih =>
    rw [List.map_cons, List.mem_cons, not_or]
    cases hl : lastCall t cs with
    | some later =>
      have hin : ¬ (t ∉ cs.map fun c => generateShortURL c.2) := fun h => by
        have := ih.mpr h
        rw [hl] at this
        exact Option.noConfusion this
      constructor
      · intro h
        simp only [lastCall, hl] at h
        exact Option.noConfusion h
      · intro h
        exact absurd h.2 hin
    | none =>
      have h1 := ih.mp hl
      by_cases ht : generateShortURL c.2 = t
      · constructor
        · intro h
          simp [lastCall, hl, ht] at h
        · intro h
          exact absurd ht.symm h.1
      · constructor
        · intro _
          exact ⟨fun h => ht h.symm, h1⟩
        · intro _
          simp [lastCall, hl, ht]

theorem lastCall_token (t : GoString) (calls : List (Time × GoString)) (c : Time × GoString)
    (h : lastCall t calls = some c) : generateShortURL c.2 = t := by
  induction calls with
  | nil => simp [lastCall] at h
  | cons d ds ih =>
    simp only [lastCall] at h
    cases hl : lastCall t ds with
    | some later => rw [hl] at h; simp at h; subst h; exact ih hl
    | none =>
      rw [hl] at h
      by_cases ht : generateShortURL d.2 = t
      · simp [ht] at h; subst h; exact ht
      · simp [ht] at h



theorem createAll_reachable_record (calls : List (Time × GoString)) (k : GoString) (r : URL)
    (h : (createAll urlDB calls).1 k = some r) :
    r.ID = k ∧ r.ShortURL = k ∧ generateShortURL r.OriginalURL = k := by
  rw [createAll_fst] at h
  cases hl : lastCall k calls with
  | some c =>
    rw [hl] at h
    simp only [Option.some.injEq] at h
    subst h
    exact ⟨rfl, rfl, lastCall_token k calls c hl⟩
  | none =>
    rw [hl] at h
    exact Option.noConfusion h


theorem getURL_createURL_same (now : Time) (db : DB) (u : GoString) :
    getURL (createURL now db u).1 (generateShortURL u) =
      .ok { ID := generateShortURL u, OriginalURL := u, ShortURL := generateShortURL u,
            CreationDate := now } := by
  rw [getURL_ok_iff, createURL_fst_same]

theorem getURL_createURL_other (now : Time) (db : DB) (u t : GoString)
    (h : t ≠ generateShortURL u) : getURL (createURL now db u).1 t = getURL db t := by
  unfold getURL
  rw [createURL_fst_other _ _ _ _ h]

theorem redirectRequest_id (method t : GoString) :
    (redirectRequest method t).Path.drop (goStr "/r/").length = t := rfl

theorem redirectRequest_in_range (method t : GoString) :
    ¬ (redirectRequest method t).Path.length < (goStr "/r/").length := by
  show ¬ (goStr "/r/" ++ t).length < (goStr "/r/").length
  rw [List.length_append]; omega

theorem redirectURLHandler_redirectRequest (db : DB) (method t : GoString) :
    redirectURLHandler db (redirectRequest method t) =
      match getURL db t with
      | .error _ => (db, some (httpError (goStr "URL not found") 404))
      | .ok url => (db, some (httpRedirectFound (redirectRequest method t) url.OriginalURL)) := by
  unfold redirectURLHandler
  rw [if_neg (redirectRequest_in_range method t)]
  simp only [redirectRequest_id]
  rfl

theorem createAll_found_of_issued (db : DB) (calls : List (Time × GoString)) (t : GoString)
    (h : t ∈ (createAll db calls).2) : ∃ r, (createAll db calls).1 t = some r := by
  rw [createAll_snd] at h
  rw [createAll_fst]
  cases hl : lastCall t calls with
  | some c => exact ⟨_, rfl⟩
  | none => exact absurd h ((lastCall_none_iff t calls).mp hl)

theorem createAll_keeps (db : DB) (more : List (Time × GoString)) (t : GoString) (r : URL)
    (h : db t = some r) : ∃ r2, (createAll db more).1 t = some r2 := by
  rw [createAll_fst]
  cases hl : lastCall t more with
  | some c => exact ⟨_, rfl⟩
  | none => exact ⟨r, h⟩



/-! ## Lemmas on the handlers -/

theorem foldl_decodeMember_skip (members : List (GoString × JSON)) (d : DecodeState)
    (h : ∀ m ∈ members, keySelectsURL m.1 = false) : members.foldl decodeMember d = d := by
  induction members generalizing d with
  | nil => rfl
  | cons m ms ih =>
    have hm : decodeMember d m = d := by
      simp [decodeMember, h m (List.mem_cons_self _ _)]
    rw [List.foldl_cons, hm]
    exact ih d fun x hx => h x (List.mem_cons_of_mem _ hx)

theorem jsonDecode_url (u : GoString) :
    jsonDecode (some (.object [(goStr "url", .string u)])) = .ok { URL := u } := rfl

theorem ShortURLHandler_ok (now : Time) (db : DB) (r : Request) (data : ShortenData)
    (h : jsonDecode r.Body = .ok data) :
    ShortURLHandler now db r =
      ((createURL now db data.URL).1,
       { Status := 200, Header := [],
         Body := .json [(goStr "short_url", generateShortURL data.URL)] }) := by
  unfold ShortURLHandler
  rw [h]
  rfl

theorem ShortURLHandler_error (now : Time) (db : DB) (r : Request) (e : DecodeError)
    (h : jsonDecode r.Body = .error e) :
    ShortURLHandler now db r = (db, httpError (goStr "Invalid request body") 400) := by
  unfold ShortURLHandler
  rw [h]
  rfl

theorem jsonDecode_too_deep (v : JSON) (h : maxNestingDepth < v.depth) :
    jsonDecode (some v) = .error .exceededMaxDepth := by
  unfold jsonDecode
  simp only [if_pos h]

theorem ShortURLHandler_too_deep (now : Time) (db : DB) (method path : GoString) (v : JSON)
    (h : maxNestingDepth < v.depth) :
    ShortURLHandler now db ⟨method, path, some v⟩ =
      (db, httpError (goStr "Invalid request body") 400) :=
  ShortURLHandler_error now db _ _ (jsonDecode_too_deep v h)

theorem hexEscapeNonASCII_ascii (u : GoString) (h : ∀ b ∈ u, b.val < 0x80) :
    hexEscapeNonASCII u = u := by
  induction u with
  | nil => rfl
  | cons b bs ih =>
    have hb : ¬ b.val ≥ 0x80 := by
      have := h b (List.mem_cons_self _ _)
      omega
    have hstep : hexEscapeNonASCII (b :: bs) = b :: hexEscapeNonASCII bs := by
      simp [hexEscapeNonASCII, hb]
    rw [hstep, ih fun x hx => h x (List.mem_cons_of_mem _ hx)]

theorem redirectTarget_of_not_relative (oldpath u : GoString)
    (h : parsesAsRelative u = false) : redirectTarget oldpath u = u := by
  unfold parsesAsRelative at h
  unfold redirectTarget
  cases hp : urlParse u with
  | none => rfl
  | some p =>
    rw [hp] at h
    simp only [Bool.and_eq_false_imp, decide_eq_true_eq, decide_eq_false_iff_not] at h
    have hn : ¬ (p.Scheme = [] ∧ p.Host = []) := fun hc => h hc.1 hc.2
    simp only [hn, if_false]

theorem shortenThenFollow_eq (now : Time) (db : DB) (method u : GoString) :
    shortenThenFollow now db method u =
      some (httpRedirectFound (redirectRequest method (generateShortURL u)) u) := by
  unfold shortenThenFollow
  rw [ShortURLHandler_ok now db _ { URL := u } (jsonDecode_url u)]
  have hlook : (ResponseBody.json [(goStr "short_url", generateShortURL u)]).shortURL =
      some (generateShortURL u) := by
    simp [ResponseBody.shortURL, List.lookup]
  simp only [hlook]
  rw [redirectURLHandler_redirectRequest]
  have hget : getURL (createURL now db u).1 (generateShortURL u) = .ok
      { ID := generateShortURL u, OriginalURL := u, ShortURL := generateShortURL u,
        CreationDate := now } := getURL_createURL_same now db u
  rw [hget]

theorem httpRedirectFound_location (r : Request) (u : GoString) :
    (httpRedirectFound r u).get (goStr "Location") =
      some (hexEscapeNonASCII (redirectTarget r.Path u)) := by
  simp [httpRedirectFound, Response.get, List.lookup]


/-! ## Tokens of particular URLs -/

set_option maxRecDepth 100000 in
theorem generateShortURL_empty : generateShortURL [] = goStr "d41d8cd9" := by decide

set_option maxRecDepth 100000 in
theorem generateShortURL_example :
    generateShortURL (goStr "https://example.com") = goStr "c984d06a" := by decide

set_option maxRecDepth 100000 in
theorem generateShortURL_1548 :
    generateShortURL (goStr "https://example.com/1548") = goStr "7f17b0c9" := by decide

set_option maxRecDepth 100000 in
theorem generateShortURL_2133 :
    generateShortURL (goStr "https://example.com/2133") = goStr "7f17b0c9" := by decide

/-! ## Lemmas on `path.Clean` -/

theorem cleanLoop_nil (rooted : Bool) (fuel : Nat) (out : GoString) (dotdot : Nat) :
    cleanLoop rooted fuel [] out dotdot = out := by
  cases fuel <;> rfl

theorem length_dropWhile_le (p : Byte → Bool) (l : GoString) :
    (l.dropWhile p).length ≤ l.length := by
  induction l with
  | nil => simp
  | cons a as ih =>
    rw [List.dropWhile_cons]
    split
    · exact Nat.le_succ_of_le ih
    · exact Nat.le_refl _

theorem cleanLoop_fuel (rooted : Bool) (fuel1 fuel2 : Nat) (rest out : GoString)
    (dotdot : Nat) (h1 : rest.length ≤ fuel1) (h2 : rest.length ≤ fuel2) :
    cleanLoop rooted fuel1 rest out dotdot = cleanLoop rooted fuel2 rest out dotdot := by
  induction fuel1 generalizing fuel2 rest out dotdot with
  | zero =>
    have : rest = [] := List.length_eq_zero.mp (Nat.le_zero.mp h1)
    subst this
    rw [cleanLoop_nil, cleanLoop_nil]
  | succ n ih =>
    cases rest with
    | nil => rw [cleanLoop_nil, cleanLoop_nil]
    | cons c rs =>
      cases fuel2 with
      | zero => simp at h2
      | succ m =>
        have hn : rs.length ≤ n := by simpa using h1
        have hm : rs.length ≤ m := by simpa using h2
        have hdn : (rs.drop 1).length ≤ n := by rw [List.length_drop]; omega
        have hdm : (rs.drop 1).length ≤ m := by rw [List.length_drop]; omega
        have hlen : c ≠ 0x2F →
            ((c :: rs).dropWhile (fun x => decide (x ≠ 0x2F))).length ≤ rs.length := by
          intro hne
          rw [List.dropWhile_cons, if_pos (by simpa using hne)]
          exact length_dropWhile_le _ rs
        simp only [cleanLoop]
        split_ifs with hc1 <;>
          first
          | exact ih m _ _ _ hn hm
          | exact ih m _ _ _ hdn hdm
          | exact ih m _ _ _ (Nat.le_trans (hlen hc1) hn) (Nat.le_trans (hlen hc1) hm)

/-- The loop of `path.Clean` runs to the end of its input on the fuel `pathClean` gives
it: more fuel changes nothing. -/
theorem pathClean_fuel_enough (rooted : Bool) (extra : Nat) (rest out : GoString)
    (dotdot : Nat) :
    cleanLoop rooted (rest.length + extra) rest out dotdot =
      cleanLoop rooted rest.length rest out dotdot :=
  cleanLoop_fuel rooted _ _ rest out dotdot (Nat.le_add_right _ _) (Nat.le_refl _)

/-! ## The claims -/

/-- C1. Round trip on the store: from every store `db` and for every string `u`, the token
`createURL` returns is found by the `getURL` that follows, with no error, and the record
found has `OriginalURL = u` and `ID` and `ShortURL` equal to the token. -/
theorem createURL_getURL_roundtrip (now : Time) (db : DB) (u : GoString) :
    getURL (createURL now db u).1 (createURL now db u).2 =
      .ok { ID := (createURL now db u).2, OriginalURL := u,
            ShortURL := (createURL now db u).2, CreationDate := now } := by
  exact getURL_createURL_same now db u

/-- C2. Token shape and totality: for every input, the empty string included, the MD5
digest has 16 bytes, its hex encoding has 32 characters (so the slice `[:8]` is in
range), and `generateShortURL` returns exactly 8 characters, each in `[0-9a-f]`, which
are the lowercase hex encoding of the first 4 bytes of the digest. -/
theorem generateShortURL_shape (u : GoString) :
    (md5Sum u).length = 16 ∧
    (hexEncodeToString (md5Sum u)).length = 32 ∧
    (generateShortURL u).length = 8 ∧
    (∀ c ∈ generateShortURL u, isLowerHex c = true) ∧
    generateShortURL u = hexEncodeToString ((md5Sum u).take 4) := by
  have hlen : (hexEncodeToString (md5Sum u)).length = 32 := by
    rw [hexEncodeToString_length, md5Sum_length]
  have htake : generateShortURL u = hexEncodeToString ((md5Sum u).take 4) :=
    hexEncodeToString_take 4 (md5Sum u)
  refine ⟨md5Sum_length u, hlen, ?_, ?_, htake⟩
  · show ((hexEncodeToString (md5Sum u)).take 8).length = 8
    rw [List.length_take, hlen]; rfl
  · rw [htake]; exact hexEncodeToString_digits _

/-- C3 as amended. A request body that is a JSON object nested no deeper than the
decoder's limit of 10000, with no key selecting the `url` field (by exact or case-folded
name), decodes without error to the empty URL: `ShortURLHandler` answers 200 with the body
`short_url = d41d8cd9`, the token of the empty string, stores the record of the empty
URL under that token exactly as `createURL("")` does, and leaves `getURL` of every other
token as it was. -/
theorem ShortURLHandler_missing_url_field (now : Time) (db : DB) (method path : GoString)
    (members : List (GoString × JSON)) (h : ∀ m ∈ members, keySelectsURL m.1 = false)
    (hdepth : (JSON.object members).depth ≤ maxNestingDepth) :
    (ShortURLHandler now db ⟨method, path, some (.object members)⟩).2 =
      { Status := 200, Header := [],
        Body := .json [(goStr "short_url", goStr "d41d8cd9")] } ∧
    (ShortURLHandler now db ⟨method, path, some (.object members)⟩).1 =
      (createURL now db []).1 ∧
    getURL (ShortURLHandler now db ⟨method, path, some (.object members)⟩).1
        (goStr "d41d8cd9") =
      .ok { ID := goStr "d41d8cd9", OriginalURL := [], ShortURL := goStr "d41d8cd9",
            CreationDate := now } ∧
    ∀ t', t' ≠ goStr "d41d8cd9" →
      getURL (ShortURLHandler now db ⟨method, path, some (.object members)⟩).1 t' =
        getURL db t' := by
  have hdec : jsonDecode (Request.mk method path (some (.object members))).Body = .ok {} := by
    show jsonDecode (some (.object members)) = .ok {}
    unfold jsonDecode
    simp only [if_neg (Nat.not_lt.mpr hdepth), foldl_decodeMember_skip members _ h]
  rw [ShortURLHandler_ok now db _ _ hdec]
  refine ⟨?_, rfl, ?_, ?_⟩
  · rw [← generateShortURL_empty]
  · rw [← generateShortURL_empty]; exact getURL_createURL_same now db []
  · intro t' ht'
    rw [← generateShortURL_empty] at ht'
    exact getURL_createURL_other now db [] t' ht'

/-- C3 witness: the body with the single member `other`, of nesting depth 1, at clock
reading 3 on the empty store. -/
theorem ShortURLHandler_missing_url_field_witness :
    (∀ m ∈ [(goStr "other", JSON.string (goStr "x"))], keySelectsURL m.1 = false) ∧
    (JSON.object [(goStr "other", JSON.string (goStr "x"))]).depth ≤ maxNestingDepth ∧
    getURL (ShortURLHandler 3 urlDB
        ⟨goStr "POST", goStr "/shorten",
          some (.object [(goStr "other", JSON.string (goStr "x"))])⟩).1 (goStr "d41d8cd9") =
      .ok { ID := goStr "d41d8cd9", OriginalURL := [], ShortURL := goStr "d41d8cd9",
            CreationDate := 3 } :=
  have h : ∀ m ∈ [(goStr "other", JSON.string (goStr "x"))], keySelectsURL m.1 = false := by
    intro m hm
    rw [List.mem_singleton] at hm
    subst hm
    decide
  ⟨h, by decide,
    (ShortURLHandler_missing_url_field 3 urlDB (goStr "POST") (goStr "/shorten") _ h
      (by decide)).2.2.1⟩

set_option maxRecDepth 100000 in
/-- C3 counterexample: on the empty store the body `{}`, valid JSON with no `url` field,
is answered with status 200, not a 4xx status, and the token `d41d8cd9`, not found before
the request, is found after it. -/
theorem ShortURLHandler_missing_url_field_accepted :
    (ShortURLHandler 0 urlDB (shortenRequest (some (.object [])))).2.Status = 200 ∧
    ¬ (400 ≤ (ShortURLHandler 0 urlDB (shortenRequest (some (.object [])))).2.Status) ∧
    getURL urlDB (goStr "d41d8cd9") = .error (goStr "URL not found") ∧
    getURL (ShortURLHandler 0 urlDB (shortenRequest (some (.object [])))).1
        (goStr "d41d8cd9") =
      .ok { ID := goStr "d41d8cd9", OriginalURL := [], ShortURL := goStr "d41d8cd9",
            CreationDate := 0 } := by
  decide

/-- C4. Atomic rejection of an undecodable body: when `Decode` returns an error, as it
does for an absent, empty or malformed body, `ShortURLHandler` leaves the store equal to
what it was and answers 400 with the plain-text message `Invalid request body`; when
`Decode` succeeds with the value `data.URL` the handler stores the record of that URL
under `generateShortURL data.URL` and answers with the JSON object whose `short_url` is
that token. -/
theorem ShortURLHandler_decode_outcomes (now : Time) (db : DB) (r : Request) :
    (match jsonDecode r.Body with
     | .error _ =>
       (ShortURLHandler now db r).1 = db ∧
       (ShortURLHandler now db r).2.Status = 400 ∧
       (ShortURLHandler now db r).2.Body = .text (goStr "Invalid request body\n") ∧
       (ShortURLHandler now db r).2.get (goStr "Content-Type") =
         some (goStr "text/plain; charset=utf-8")
     | .ok data =>
       (ShortURLHandler now db r).1 = (createURL now db data.URL).1 ∧
       getURL (ShortURLHandler now db r).1 (generateShortURL data.URL) =
         .ok { ID := generateShortURL data.URL, OriginalURL := data.URL,
               ShortURL := generateShortURL data.URL, CreationDate := now } ∧
       (ShortURLHandler now db r).2.Status = 200 ∧
       (ShortURLHandler now db r).2.Body =
         .json [(goStr "short_url", generateShortURL data.URL)]) ∧
    (∃ e, jsonDecode none = .error e) ∧
    (∀ u, jsonDecode (some (.object [(goStr "url", .string u)])) = .ok { URL := u }) := by
  refine ⟨?_, ⟨_, rfl⟩, jsonDecode_url⟩
  split
  · rename_i e he
    rw [ShortURLHandler_error now db r e he]
    exact ⟨rfl, rfl, rfl, rfl⟩
  · rename_i data hd
    rw [ShortURLHandler_ok now db r data hd]
    exact ⟨rfl, getURL_createURL_same now db data.URL, rfl, rfl⟩

/-- C5. Unknown token is not found, and only unknown tokens are: in the store reached from
the empty `urlDB` by any sequence of `createURL` calls, `getURL t` returns the error
`URL not found` exactly when no call of the sequence returned `t`, and
`redirectURLHandler` on the path `/r/t` answers with `http.Error(404)`, which carries
status 404 and no `Location` header, exactly when no call returned `t`; a token that was
returned stays found after any further calls. -/
theorem getURL_not_found_iff_never_issued (calls more : List (Time × GoString))
    (t method : GoString) :
    (getURL (createAll urlDB calls).1 t = .error (goStr "URL not found") ↔
      t ∉ (createAll urlDB calls).2) ∧
    ((redirectURLHandler (createAll urlDB calls).1 (redirectRequest method t)).2 =
        some (httpError (goStr "URL not found") 404) ↔ t ∉ (createAll urlDB calls).2) ∧
    (httpError (goStr "URL not found") 404).Status = 404 ∧
    (httpError (goStr "URL not found") 404).get (goStr "Location") = none ∧
    (t ∈ (createAll urlDB calls).2 →
      ∃ r, getURL (createAll (createAll urlDB calls).1 more).1 t = .ok r) := by
  have hget : getURL (createAll urlDB calls).1 t = .error (goStr "URL not found") ↔
      t ∉ (createAll urlDB calls).2 := by
    rw [getURL_error_iff, createAll_snd, ← lastCall_none_iff, createAll_fst]
    cases hl : lastCall t calls with
    | some c => simp
    | none => simp [urlDB]
  refine ⟨hget, ?_, rfl, by decide, ?_⟩
  · rw [← hget, redirectURLHandler_redirectRequest]
    cases hg : getURL (createAll urlDB calls).1 t with
    | error e =>
      have he : e = goStr "URL not found" := by
        unfold getURL at hg
        cases hd : (createAll urlDB calls).1 t with
        | some r => rw [hd] at hg; exact Except.noConfusion hg
        | none => rw [hd] at hg; injection hg with hg; exact hg.symm
      subst he
      simp
    | ok url =>
      simp only [Option.some.injEq]
      constructor
      · intro h
        have hs := congrArg Response.Status h
        exact absurd (show (302 : Nat) = 404 from hs) (by decide)
      · intro h
        exact Except.noConfusion h
  · intro hin
    obtain ⟨r, hr⟩ := createAll_found_of_issued urlDB calls t hin
    obtain ⟨r2, hr2⟩ := createAll_keeps _ more t r hr
    exact ⟨r2, (getURL_ok_iff _ _ _).mpr hr2⟩

/-- C6. Determinism and idempotent resubmission: the token `createURL` returns for `u` is
the same in every store and at every clock reading; `createURL(u)` called a second time,
after any other `createURL` calls in between, returns the token of the first call, the
record then stored under it has the same `ID`, `ShortURL` and `OriginalURL` as after the
first call, and the store has the same keys as without the second call. -/
theorem createURL_resubmission (now1 now2 now3 : Time) (db db2 : DB) (u : GoString)
    (between : List (Time × GoString)) :
    (createURL now1 db u).2 = (createURL now3 db2 u).2 ∧
    (createURL now2 (createAll (createURL now1 db u).1 between).1 u).2 =
      (createURL now1 db u).2 ∧
    (∃ r1 r2,
      getURL (createURL now1 db u).1 (createURL now1 db u).2 = .ok r1 ∧
      getURL (createURL now2 (createAll (createURL now1 db u).1 between).1 u).1
        (createURL now1 db u).2 = .ok r2 ∧
      r2.ID = r1.ID ∧ r2.ShortURL = r1.ShortURL ∧ r2.OriginalURL = r1.OriginalURL) ∧
    (∀ k, ((createURL now2 (createAll (createURL now1 db u).1 between).1 u).1 k).isSome =
      ((createAll (createURL now1 db u).1 between).1 k).isSome) := by
  refine ⟨rfl, rfl, ⟨_, _, getURL_createURL_same now1 db u,
    getURL_createURL_same now2 _ u, rfl, rfl, rfl⟩, ?_⟩
  intro k
  by_cases hk : k = generateShortURL u
  · subst hk
    rw [createURL_fst_same]
    obtain ⟨r2, hr2⟩ := createAll_keeps _ between _ _ (createURL_fst_same now1 db u)
    rw [hr2]; rfl
  · rw [createURL_fst_other _ _ _ _ hk]

/-- C7 as amended. Whatever `u` is submitted, following the returned token is answered
with status 302 and the `Location` header `http.Redirect` computes for `u`; that header
equals `u` byte for byte when `u` has only ASCII bytes and `url.Parse` does not read it as
a reference without scheme and host. -/
theorem redirect_location_exact_of_absolute_ascii (now : Time) (db : DB) (method u : GoString)
    (hascii : ∀ b ∈ u, b.val < 0x80) (habs : parsesAsRelative u = false) :
    (∃ w, shortenThenFollow now db method u = some w ∧ w.Status = 302 ∧
      w.get (goStr "Location") = some u) ∧
    ∀ v : GoString, ∃ w, shortenThenFollow now db method v = some w ∧ w.Status = 302 ∧
      w.get (goStr "Location") =
        some (hexEscapeNonASCII (redirectTarget (goStr "/r/" ++ generateShortURL v) v)) := by
  constructor
  · refine ⟨_, shortenThenFollow_eq now db method u, rfl, ?_⟩
    rw [httpRedirectFound_location, redirectTarget_of_not_relative _ _ habs,
      hexEscapeNonASCII_ascii _ hascii]
  · intro v
    exact ⟨_, shortenThenFollow_eq now db method v, rfl, httpRedirectFound_location _ _⟩

set_option maxRecDepth 100000 in
/-- C7 witness: `https://example.com` submitted at clock reading 1 on the empty store and
followed with `GET`. -/
theorem redirect_location_exact_of_absolute_ascii_witness :
    (∀ b ∈ goStr "https://example.com", b.val < 0x80) ∧
    parsesAsRelative (goStr "https://example.com") = false ∧
    ∃ w, shortenThenFollow 1 urlDB (goStr "GET") (goStr "https://example.com") = some w ∧
      w.Status = 302 ∧ w.get (goStr "Location") = some (goStr "https://example.com") :=
  ⟨by decide, by decide,
    (redirect_location_exact_of_absolute_ascii 1 urlDB (goStr "GET")
      (goStr "https://example.com") (by decide) (by decide)).1⟩

set_option maxRecDepth 100000 in
/-- C7 counterexample: on the empty store, following the token of `example.com` is
answered with `Location: /r/example.com`, following the token of the empty string with
`Location: /r/`, and following the token of `https://example.com/é` with the two bytes
of `é` percent-escaped; none of the three headers equals the submitted string. -/
theorem redirect_location_rewritten :
    ((shortenThenFollow 0 urlDB (goStr "GET") (goStr "example.com")).bind
        fun w => w.get (goStr "Location")) = some (goStr "/r/example.com") ∧
    ((shortenThenFollow 0 urlDB (goStr "GET") (goStr "example.com")).bind
        fun w => w.get (goStr "Location")) ≠ some (goStr "example.com") ∧
    ((shortenThenFollow 0 urlDB (goStr "GET") []).bind
        fun w => w.get (goStr "Location")) = some (goStr "/r/") ∧
    ((shortenThenFollow 0 urlDB (goStr "GET") (goStr "https://example.com/é")).bind
        fun w => w.get (goStr "Location")) = some (goStr "https://example.com/%c3%a9") ∧
    goStr "https://example.com/%c3%a9" ≠ goStr "https://example.com/é" := by
  decide

/-- C8. Creating a link changes only its own entry: for every store, every `u` and every
token `t'` other than `generateShortURL u`, `getURL t'` returns the same result, record
with its `CreationDate` or error, before and after `createURL u`; `getURL` only reads the
store, and `redirectURLHandler` leaves the store as it was on every request. -/
theorem createURL_frame (now : Time) (db : DB) (u t' : GoString)
    (h : t' ≠ generateShortURL u) :
    getURL (createURL now db u).1 t' = getURL db t' ∧
    ∀ r : Request, (redirectURLHandler db r).1 = db := by
  constructor
  · exact getURL_createURL_other now db u t' h
  · intro r
    unfold redirectURLHandler
    split
    · rfl
    · dsimp only
      split <;> rfl

/-- C8 witness: on the store that holds the record of the empty URL created at clock
reading 1, creating `https://example.com` at clock reading 2 leaves `getURL` of the token
`d41d8cd9` as it was. -/
theorem createURL_frame_witness :
    goStr "d41d8cd9" ≠ generateShortURL (goStr "https://example.com") ∧
    getURL (createURL 2 (createURL 1 urlDB []).1 (goStr "https://example.com")).1
        (goStr "d41d8cd9") =
      getURL (createURL 1 urlDB []).1 (goStr "d41d8cd9") :=
  have h : goStr "d41d8cd9" ≠ generateShortURL (goStr "https://example.com") := by
    rw [generateShortURL_example]; decide
  ⟨h, (createURL_frame 2 (createURL 1 urlDB []).1 (goStr "https://example.com")
    (goStr "d41d8cd9") h).1⟩

/-- C9. Collision is a silent last-write-wins overwrite: in a store reached from the empty
`urlDB` by `createURL` calls, for `u1 ≠ u2` with the same token, `createURL(u1)` and then
`createURL(u2)` both return that token, `getURL` of the token then returns the one record
of `u2`, and no token leads to a record whose `OriginalURL` is `u1`; after any sequence of
`createURL` calls on any store, `getURL t` returns the record of the last call whose token
is `t`, and what the store held before when there is no such call. -/
theorem collision_last_write_wins (calls : List (Time × GoString)) (now1 now2 : Time)
    (u1 u2 : GoString) (hne : u1 ≠ u2) (hcol : generateShortURL u1 = generateShortURL u2) :
    (createURL now1 (createAll urlDB calls).1 u1).2 = generateShortURL u1 ∧
    (createURL now2 (createURL now1 (createAll urlDB calls).1 u1).1 u2).2 =
      generateShortURL u1 ∧
    getURL (createURL now2 (createURL now1 (createAll urlDB calls).1 u1).1 u2).1
        (generateShortURL u1) =
      .ok { ID := generateShortURL u1, OriginalURL := u2, ShortURL := generateShortURL u1,
            CreationDate := now2 } ∧
    (∀ t' r,
      getURL (createURL now2 (createURL now1 (createAll urlDB calls).1 u1).1 u2).1 t' = .ok r →
        r.OriginalURL ≠ u1) ∧
    (∀ (db : DB) (seq : List (Time × GoString)) (t : GoString),
      getURL (createAll db seq).1 t =
        match lastCall t seq with
        | some c => .ok { ID := t, OriginalURL := c.2, ShortURL := t, CreationDate := c.1 }
        | none => getURL db t) := by
  refine ⟨rfl, hcol.symm, ?_, ?_, ?_⟩
  · rw [hcol]; exact getURL_createURL_same now2 _ u2
  · intro t' r hr
    rw [getURL_ok_iff] at hr
    by_cases ht : t' = generateShortURL u2
    · subst ht
      rw [createURL_fst_same] at hr
      simp only [Option.some.injEq] at hr
      subst hr
      exact fun h => hne h.symm
    · rw [createURL_fst_other _ _ _ _ ht, createURL_fst_other _ _ _ _ (hcol ▸ ht)] at hr
      intro h
      have := (createAll_reachable_record calls t' r hr).2.2
      rw [h, hcol] at this
      exact ht this.symm
  · intro db seq t
    unfold getURL
    rw [createAll_fst]
    cases lastCall t seq <;> rfl

/-- C9 witness: `https://example.com/1548` and `https://example.com/2133` are distinct and
share the token `7f17b0c9`; after both are created on the empty store, the token leads to
the second. -/
theorem collision_last_write_wins_witness :
    goStr "https://example.com/1548" ≠ goStr "https://example.com/2133" ∧
    generateShortURL (goStr "https://example.com/1548") =
      generateShortURL (goStr "https://example.com/2133") ∧
    getURL (createURL 2 (createURL 1 urlDB (goStr "https://example.com/1548")).1
        (goStr "https://example.com/2133")).1
        (generateShortURL (goStr "https://example.com/1548")) =
      .ok { ID := generateShortURL (goStr "https://example.com/1548"),
            OriginalURL := goStr "https://example.com/2133",
            ShortURL := generateShortURL (goStr "https://example.com/1548"),
            CreationDate := 2 } :=
  have hcol : generateShortURL (goStr "https://example.com/1548") =
      generateShortURL (goStr "https://example.com/2133") := by
    rw [generateShortURL_1548, generateShortURL_2133]
  ⟨by decide, hcol,
    (collision_last_write_wins [] 1 2 (goStr "https://example.com/1548")
      (goStr "https://example.com/2133") (by decide) hcol).2.2.1⟩

/-- C10 as amended. `CreationDate` is the time of the latest creation: after `createURL(u)`
at `now1`, any calls in between, and `createURL(u)` again at `now2`, the record stored
under `generateShortURL u` has `CreationDate = now2`. -/
theorem creationDate_is_latest_call (now1 now2 : Time) (db : DB) (u : GoString)
    (between : List (Time × GoString)) :
    getURL (createURL now2 (createAll (createURL now1 db u).1 between).1 u).1
        (generateShortURL u) =
      .ok { ID := generateShortURL u, OriginalURL := u, ShortURL := generateShortURL u,
            CreationDate := now2 } := by
  rw [getURL_ok_iff, createURL_fst_same]

set_option maxRecDepth 100000 in
/-- C10 counterexample: `https://example.com` created on the empty store at clock reading
1 and again at clock reading 2 is stored with `CreationDate = 2`; no record with
`CreationDate = 1` is found under its token. -/
theorem creationDate_not_first_call :
    getURL (createURL 2 (createURL 1 urlDB (goStr "https://example.com")).1
        (goStr "https://example.com")).1 (goStr "c984d06a") =
      .ok { ID := goStr "c984d06a", OriginalURL := goStr "https://example.com",
            ShortURL := goStr "c984d06a", CreationDate := 2 } ∧
    ¬ ∃ r, getURL (createURL 2 (createURL 1 urlDB (goStr "https://example.com")).1
        (goStr "https://example.com")).1 (generateShortURL (goStr "https://example.com")) =
          .ok r ∧ r.CreationDate = 1 := by
  have h : getURL (createURL 2 (createURL 1 urlDB (goStr "https://example.com")).1
      (goStr "https://example.com")).1 (generateShortURL (goStr "https://example.com")) =
        .ok { ID := generateShortURL (goStr "https://example.com"),
              OriginalURL := goStr "https://example.com",
              ShortURL := generateShortURL (goStr "https://example.com"),
              CreationDate := 2 } := getURL_createURL_same 2 _ _
  constructor
  · rw [← generateShortURL_example]; exact h
  · rintro ⟨r, hr, hc⟩
    rw [h] at hr
    injection hr with hr
    subst hr
    exact absurd hc (by decide)

end GoURL
